import Mathlib

/-
Verification of the Cray power-capping control loop
(src/src/plugins/power/cray/power_cray.c).

The development shallowly embeds the plugin's pure decision logic:
machine integers become `Nat` with explicit reduction modulo 2^32 /
2^64 at the operations where the C code computes in `uint32_t` /
`uint64_t`, node tables become lists of records, and each C function
that the claims mention is translated into a Lean function of the same
name.  External collaborators (the capmc child process, JSON parsing,
host locking, hostset range-string compression) are outside the
embedding; functions take their already-parsed inputs as arguments.
-/

namespace PowerCray

/-! ## Machine arithmetic

The plugin computes in C `uint32_t` (and `uint64_t` for energy
counters).  We model the values as `Nat` together with explicit
wrap-around at the operations: every arithmetic step of the source is
performed modulo the word size, exactly as the unsigned C operation
does.  Subtraction `sub32 a b` is the C computation `a - b` on
`uint32_t` operands `a b < 2^32`. -/

def W32 : Nat := 4294967296

def W64 : Nat := 18446744073709551616

def add32 (a b : Nat) : Nat := (a + b) % W32

def sub32 (a b : Nat) : Nat := (a + W32 - b) % W32

def mul32 (a b : Nat) : Nat := (a * b) % W32

def mul64 (a b : Nat) : Nat := (a * b) % W64

/-- slurm.h value NO_VAL = 0xfffffffe, used for the tri-state `job_level`. -/
def NO_VAL : Nat := 4294967294

/-- slurm.h value INFINITE = 0xffffffff, initial minimum in `_level_power_by_job`. -/
def INFINITE : Nat := 4294967295

/-! ## Data model

`power_mgmt_data_t` is the per-node power sub-record (slurm.h); the
plugin reads and writes the fields below.  `node_record` carries the
numeric node id: the node's name is "nid" followed by the id
zero-padded to width 5, and `_node_name2nid` (embedded further down)
recovers the digits.  A node may lack a power record (`Option`). -/

structure power_mgmt_data where
  cap_watts : Nat
  current_watts : Nat
  joule_counter : Nat
  max_watts : Nat
  min_watts : Nat
  new_cap_watts : Nat
  new_job_time : Nat
  state : Nat
  time_usec : Nat
  deriving DecidableEq, Repr

structure node_record where
  nid : Nat
  power : Option power_mgmt_data
  deriving DecidableEq, Repr

/-! ## Wattage estimator (`_get_node_energy_counter`, lines 1063-1112)

The per-node update performed under the node write lock.  Before the
loop the code resets every node's `current_watts` to 0, so "leave the
estimate alone" is "leave it 0"; the function returns the new
`(current_watts, joule_counter, time_usec)` triple computed from the
stored pair `(prev_joules, prev_time)` and the fresh sample `(j, t)`.
`delta_joules *= 1000000` is a `uint64_t` multiplication and the final
store into `current_watts` truncates to `uint32_t`. -/

def usecs_day : Nat := 86400000000

def energy_delta_time (prev_time t : Nat) : Nat :=
  if t = 0 ∨ prev_time = 0 then 0
  else if t > prev_time then t - prev_time
  else if t < prev_time ∧ t + usecs_day > prev_time then t + usecs_day - prev_time
  else 0

def energy_counter_update (prev_joules prev_time j t : Nat) : Nat × Nat × Nat :=
  (if energy_delta_time prev_time t ≠ 0 ∧ prev_joules < j then
      (mul64 (j - prev_joules) 1000000) / energy_delta_time prev_time t % W32
    else 0, j, t)

/-- Modelled from the spec: the estimator exactly as claim C4 words it.
If either timestamp is zero or fresh joules do not exceed stored
joules the estimate stays 0; otherwise Δt is the positive difference
when `t > prev_time`, else the midnight wrap `(t + 86_400_000_000) -
prev_time` whenever `t + 86_400_000_000 > prev_time`; the watts value
is `⌊Δj × 10^6 / Δt⌋`, and the fresh pair is stored in every case. -/
def spec_energy_update (prev_joules prev_time j t : Nat) : Nat × Nat × Nat :=
  (if t = 0 ∨ prev_time = 0 ∨ j ≤ prev_joules then 0
    else if t > prev_time then (j - prev_joules) * 1000000 / (t - prev_time)
    else if t + usecs_day > prev_time then
      (j - prev_joules) * 1000000 / (t + usecs_day - prev_time)
    else 0, j, t)

/-- Modelled from the spec: claim C4 amended so that the midnight-wrap
branch additionally requires the fresh timestamp to be strictly
earlier than the stored one (`t < prev_time`), matching the source;
with equal nonzero timestamps no estimate is produced. -/
def spec_energy_update_amended (prev_joules prev_time j t : Nat) : Nat × Nat × Nat :=
  (if t = 0 ∨ prev_time = 0 ∨ j ≤ prev_joules then 0
    else if t > prev_time then (j - prev_joules) * 1000000 / (t - prev_time)
    else if t < prev_time ∧ t + usecs_day > prev_time then
      (j - prev_joules) * 1000000 / (t + usecs_day - prev_time)
    else 0, j, t)

/-! ## Configuration (`_load_config`, lines 227-337)

The string scanning (`strstr`/`atoi`/`strtol`) is abstracted: the
embedding receives the parsed numeric value of each recognized key
that occurs in the PowerParameters string (`none` when the key is
absent), plus the suffix multiplier for `cap_watts` (1, 1000 for k/K,
1000000 for m/M).  The C statics keep their previous values when a key
is absent, so the loader maps a previous configuration to a new one.
`atoi`/`strtol` results land in `uint32_t` variables (except the `int`
`balance_interval`), which `toU32` models. -/

def toU32 (v : Int) : Nat := (v % (W32 : Int)).toNat

structure PowerParameters where
  balance_interval : Option Int
  cap_watts : Option (Int × Nat)
  decrease_rate : Option Int
  increase_rate : Option Int
  job_level_key : Option Bool
  lower_threshold : Option Int
  recent_job : Option Int
  upper_threshold : Option Int
  deriving DecidableEq, Repr

structure power_config where
  balance_interval : Int
  cap_watts : Nat
  decrease_rate : Nat
  increase_rate : Nat
  job_level : Nat
  lower_threshold : Nat
  recent_job : Nat
  upper_threshold : Nat
  deriving DecidableEq, Repr

def default_config : power_config :=
  { balance_interval := 30, cap_watts := 0, decrease_rate := 50, increase_rate := 20,
    job_level := NO_VAL, lower_threshold := 90, recent_job := 300, upper_threshold := 95 }

/-- Embedding of `_load_config`, in the source's key order.  Note that
the `decrease_rate` and `increase_rate` validators assign
`lower_threshold` on failure while leaving the offending key at its
invalid parsed value, exactly as the source does at lines 270-286. -/
def _load_config (prev : power_config) (p : PowerParameters) : power_config :=
  let bi := match p.balance_interval with
    | none => prev.balance_interval
    | some v => if v < 1 then 30 else v
  let cw := match p.cap_watts with
    | none => prev.cap_watts
    | some (v, suffix) =>
      let c := toU32 v
      if c < 1 then 0 else mul32 c suffix
  let drlt := match p.decrease_rate with
    | none => (prev.decrease_rate, prev.lower_threshold)
    | some v =>
      let d := toU32 v
      if d < 1 then (d, 50) else (d, prev.lower_threshold)
  let irlt := match p.increase_rate with
    | none => (prev.increase_rate, drlt.2)
    | some v =>
      let d := toU32 v
      if d < 1 then (d, 20) else (d, drlt.2)
  let jl := match p.job_level_key with
    | some true => 1
    | some false => 0
    | none => NO_VAL
  let lt := match p.lower_threshold with
    | none => irlt.2
    | some v =>
      let d := toU32 v
      if d < 1 then 90 else d
  let rj := match p.recent_job with
    | none => prev.recent_job
    | some v =>
      let d := toU32 v
      if d < 1 then 300 else d
  let ut := match p.upper_threshold with
    | none => prev.upper_threshold
    | some v =>
      let d := toU32 v
      if d < 1 then 95 else d
  { balance_interval := bi, cap_watts := cw, decrease_rate := drlt.1, increase_rate := irlt.1,
    job_level := jl, lower_threshold := lt, recent_job := rj, upper_threshold := ut }

def no_params : PowerParameters :=
  { balance_interval := none, cap_watts := none, decrease_rate := none, increase_rate := none,
    job_level_key := none, lower_threshold := none, recent_job := none, upper_threshold := none }

/-! ## Node names and nids (`_node_name2nid` lines 206-224, `_parse_nids` lines 540-564)

`_parse_nids` renders a nid as the node name `"nid%5.5d"`;
`_node_name2nid` strips the `nid` prefix and then up to four leading
zeros of the numeric portion (the loop runs `j = 3..6`).  `parse_dec`
is the standard decimal reading of the resulting digit string (the
claim's "parses back"). -/

def zero_pad5 (n : Nat) : List Char :=
  [Nat.digitChar (n / 10000 % 10), Nat.digitChar (n / 1000 % 10),
   Nat.digitChar (n / 100 % 10), Nat.digitChar (n / 10 % 10), Nat.digitChar (n % 10)]

def nid_node_name (n : Nat) : List Char := 'n' :: 'i' :: 'd' :: zero_pad5 n

def skip_zeros : Nat → List Char → List Char
  | 0, l => l
  | _ + 1, [] => []
  | fuel + 1, c :: rest => if c = '0' then skip_zeros fuel rest else c :: rest

def _node_name2nid (name : List Char) : List Char :=
  match name with
  | 'n' :: 'i' :: 'd' :: rest => skip_zeros 4 rest
  | _ => name

def parse_dec (s : List Char) : Nat :=
  s.foldl (fun a c => a * 10 + (c.toNat - 48)) 0

/-! ## Cap applier (`_set_power_caps`, lines 1619-1693)

The function walks the change list twice: pass 1 invokes the site
power agent for every record with `increase_power == false`, aborting
the whole function on a nonzero exit status (after that failing
invocation was already issued); pass 2 invokes it for every record
with `increase_power == true`, continuing past failures.  The
embedding returns the list of records in dispatch order; the exit
status of each invocation is supplied by the oracle `ok`. -/

structure power_by_nodes where
  alloc_watts : Nat
  increase_power : Bool
  nodes : List Nat
  deriving DecidableEq, Repr

def decrease_pass (ok : power_by_nodes → Bool) :
    List power_by_nodes → List power_by_nodes × Bool
  | [] => ([], false)
  | r :: rs =>
    if r.increase_power then decrease_pass ok rs
    else if ok r then
      let d := decrease_pass ok rs
      (r :: d.1, d.2)
    else ([r], true)

def _set_power_caps (ok : power_by_nodes → Bool)
    (node_power_list : List power_by_nodes) : List power_by_nodes :=
  let d := decrease_pass ok node_power_list
  if d.2 then d.1 else d.1 ++ node_power_list.filter (fun r => r.increase_power)

/-! ## Allocator (`_rebalance_node_power`, lines 1400-1617)

The function reads configuration and the node/job tables and writes
`new_cap_watts` on every power-bearing node, returning a change list.
It decomposes into:
Phase A, lines 1414-1463 (`lower_caps`): classify and initially size;
Phase B, lines 1465-1488 (`reduce_caps`): budget clawback;
Phase C, lines 1494-1534 (`raise_loop`): distribute available power;
Phase D, lines 1536-1537 and 1332-1396 (`_level_power_by_job`);
Phase E, lines 1539-1590 (`build_change_list`): emit change records.
The final range-string compression (lines 1592-1614) iterates
`part_list`, an unrelated collection, and is outside the embedding.
`recent` is the value `time(NULL) - recent_job` computed at line 1411;
all counters are the function's `uint32_t` locals. -/

structure RebalanceCnt where
  alloc_power : Nat
  node_power_needed : Nat
  node_power_lower_cnt : Nat
  node_power_same_cnt : Nat
  node_power_raise_cnt : Nat
  deriving DecidableEq, Repr

def initCnt : RebalanceCnt := ⟨0, 0, 0, 0, 0⟩

/-- Phase A: walk the table, classify each power-bearing node and set
its initial `new_cap_watts`, accumulating the `uint32_t` counters. -/
def lower_caps (cfg : power_config) (acc : RebalanceCnt) :
    List node_record → List node_record × RebalanceCnt
  | [] => ([], acc)
  | n :: rest =>
    match n.power with
    | none =>
      let r := lower_caps cfg acc rest
      (n :: r.1, r.2)
    | some p =>
      if p.state ≠ 1 then
        let ncw := if p.cap_watts = 0 then p.max_watts else p.cap_watts
        let r := lower_caps cfg { acc with alloc_power := add32 acc.alloc_power ncw } rest
        ({ n with power := some { p with new_cap_watts := ncw } } :: r.1, r.2)
      else if p.cap_watts = 0 ∨ p.current_watts = 0 then
        let r := lower_caps cfg acc rest
        ({ n with power := some { p with new_cap_watts := 0 } } :: r.1, r.2)
      else if p.current_watts < mul32 p.cap_watts cfg.lower_threshold then
        let ave_power := sub32 p.cap_watts p.current_watts / 2
        let tmp1 := mul32 (sub32 p.max_watts p.min_watts) cfg.decrease_rate / 100
        let new_cap := sub32 p.cap_watts (min tmp1 ave_power)
        let ncw := max new_cap p.min_watts
        let r := lower_caps cfg
          { acc with
            alloc_power := add32 acc.alloc_power ncw
            node_power_lower_cnt := acc.node_power_lower_cnt + 1 } rest
        ({ n with power := some { p with new_cap_watts := ncw } } :: r.1, r.2)
      else if p.current_watts < mul32 p.cap_watts cfg.upper_threshold then
        let ncw := max p.cap_watts p.min_watts
        let r := lower_caps cfg
          { acc with
            alloc_power := add32 acc.alloc_power ncw
            node_power_same_cnt := acc.node_power_same_cnt + 1 } rest
        ({ n with power := some { p with new_cap_watts := ncw } } :: r.1, r.2)
      else
        let r := lower_caps cfg
          { acc with
            node_power_raise_cnt := acc.node_power_raise_cnt + 1
            node_power_needed := add32 acc.node_power_needed p.min_watts } rest
        ({ n with power := some { p with new_cap_watts := 0 } } :: r.1, r.2)

/-- The `avail_power` computed at lines 1465-1466. -/
def avail_power0 (cfg : power_config) (acc : RebalanceCnt) : Nat :=
  if cfg.cap_watts > acc.alloc_power then cfg.cap_watts - acc.alloc_power else 0

/-- The numerator `MAX(red1, red2)` computed at lines 1470-1475: how
much power the clawback must recover. -/
def claw_need (cfg : power_config) (acc : RebalanceCnt) : Nat :=
  max (if acc.alloc_power > cfg.cap_watts then acc.alloc_power - cfg.cap_watts else 0)
    (if acc.node_power_needed > avail_power0 cfg acc then
      acc.node_power_needed - avail_power0 cfg acc
    else 0)

/-- The per-node reduction `red1 /= (node_power_lower_cnt +
node_power_same_cnt)` of line 1476.  The C division is undefined
behaviour when the divisor is 0 (claim C10); Lean's `Nat` division
returns 0 there. -/
def claw_red (cfg : power_config) (acc : RebalanceCnt) : Nat :=
  claw_need cfg acc / (acc.node_power_lower_cnt + acc.node_power_same_cnt)

def node_reduction (red : Nat) (n : node_record) : Nat :=
  match n.power with
  | none => 0
  | some p =>
    if p.new_cap_watts = 0 then 0 else min (sub32 p.new_cap_watts p.min_watts) red

def reduce_node (red : Nat) (n : node_record) : node_record :=
  match n.power with
  | none => n
  | some p =>
    if p.new_cap_watts = 0 then n
    else
      let ncw := sub32 p.new_cap_watts (min (sub32 p.new_cap_watts p.min_watts) red)
      { n with power := some { p with new_cap_watts := ncw } }

/-- Phase B: when the clawback fires, reduce every placed node by
`min(new_cap_watts - min_watts, red)`, update `alloc_power`
accordingly, and recompute `avail_power = cap_watts - alloc_power`
(the unconditional `uint32_t` subtraction of line 1487).  Returns
(table, alloc_power, avail_power). -/
def reduce_caps (cfg : power_config) (tbl : List node_record) (acc : RebalanceCnt) :
    List node_record × Nat × Nat :=
  if acc.alloc_power > cfg.cap_watts ∨ acc.node_power_needed > avail_power0 cfg acc then
    let red := claw_red cfg acc
    let tbl2 := tbl.map (reduce_node red)
    let alloc2 := tbl.foldl (fun a n => sub32 a (node_reduction red n)) acc.alloc_power
    (tbl2, alloc2, sub32 cfg.cap_watts alloc2)
  else (tbl, acc.alloc_power, avail_power0 cfg acc)

/-- The cap granted to one pressing node at lines 1503-1521: a full
reset to the share for recently re-assigned or uncapped nodes, else a
rise of at most `increase_rate`, then the clamp into
`[min_watts, max_watts]`. -/
def raise_node_cap (cfg : power_config) (recent : Nat) (ave_power : Nat)
    (p : power_mgmt_data) : Nat :=
  let new_cap :=
    if p.new_job_time = 0 ∨ p.new_job_time > recent ∨ p.cap_watts = 0 then ave_power
    else min (add32 p.cap_watts (mul32 (sub32 p.max_watts p.min_watts) cfg.increase_rate / 100))
      ave_power
  min (max new_cap p.min_watts) p.max_watts

/-- Phase C body: walk the table filling nodes whose `new_cap_watts`
is still 0, decrementing the raise counter, breaking at 0 and
re-normalizing the share when the grant differed from it. -/
def raise_loop (cfg : power_config) (recent : Nat) :
    Nat → Nat → Nat → List node_record → List node_record
  | _, _, _, [] => []
  | ave, avail, raise_cnt, n :: rest =>
    match n.power with
    | none => n :: raise_loop cfg recent ave avail raise_cnt rest
    | some p =>
      if p.new_cap_watts ≠ 0 then n :: raise_loop cfg recent ave avail raise_cnt rest
      else
        let ncw := raise_node_cap cfg recent ave p
        let n2 : node_record := { n with power := some { p with new_cap_watts := ncw } }
        let avail2 := if avail > ncw then avail - ncw else 0
        let raise2 := raise_cnt - 1
        if raise2 = 0 then n2 :: rest
        else
          let ave2 := if ncw ≠ ave then avail2 / raise2 else ave
          n2 :: raise_loop cfg recent ave2 avail2 raise2 rest

def distribute_avail (cfg : power_config) (recent : Nat) (avail raise_cnt : Nat)
    (tbl : List node_record) : List node_record :=
  if raise_cnt ≠ 0 then raise_loop cfg recent (avail / raise_cnt) avail raise_cnt tbl else tbl

/-- The proposed cap a node holds: 0 without a power record. -/
def node_cap (n : node_record) : Nat :=
  match n.power with
  | some p => p.new_cap_watts
  | none => 0

/-- Exact (unwrapped) sum of `new_cap_watts` over the table; nodes
without a power record, and unplaced nodes (`new_cap_watts = 0`),
contribute 0, so this is also the sum over placed nodes. -/
def sum_new_cap : List node_record → Nat
  | [] => 0
  | n :: rest => node_cap n + sum_new_cap rest

/-- Number of placed nodes (power record present, nonzero proposed cap). -/
def placed_cnt : List node_record → Nat
  | [] => 0
  | n :: rest =>
    (match n.power with
      | some p => if p.new_cap_watts ≠ 0 then 1 else 0
      | none => 0) + placed_cnt rest

/-- Total Phase-B reduction over a table at divisor value `red`. -/
def red_total (red : Nat) : List node_record → Nat
  | [] => 0
  | n :: rest => node_reduction red n + red_total red rest

/-! ### Phase D (`_level_power_by_job`, lines 1332-1396)

Jobs are read-only: a running flag, the `SLURM_POWER_FLAGS_LEVEL` bit
of `power_flags`, and the set bits of `node_bitmap` as indices into
the node table. -/

structure job_record where
  running : Bool
  power_flags_level : Bool
  node_bitmap : List Nat
  deriving DecidableEq, Repr

structure JobWatts where
  total_watts : Nat
  total_nodes : Nat
  max_watts : Nat
  min_watts : Nat
  deriving DecidableEq, Repr

/-- A node the levelling pass reads and writes: a set bit of the job's
bitmap whose node has a power record in the ready state. -/
def level_member_node (job : job_record) (i : Nat) (n : node_record) : Bool :=
  decide (i ∈ job.node_bitmap) &&
    (match n.power with
      | some p => p.state == 1
      | none => false)

/-- One iteration of the first pass (lines 1357-1371): accumulate a
ready member's `new_cap_watts` into the totals (`uint32_t` addition),
bump the count, and track the extrema. -/
def job_stats_step (tbl : List node_record) (job : job_record) (s : JobWatts) (i : Nat) :
    JobWatts :=
  match tbl[i]? with
  | none => s
  | some n =>
    if level_member_node job i n then
      match n.power with
      | none => s
      | some p =>
        { total_watts := add32 s.total_watts p.new_cap_watts,
          total_nodes := s.total_nodes + 1,
          max_watts := max s.max_watts p.new_cap_watts,
          min_watts := min s.min_watts p.new_cap_watts }
    else s

/-- First pass of lines 1349-1371: totals, count, maximum and minimum
of `new_cap_watts` over the job's ready members (minimum initialized
to INFINITE). -/
def job_stats (tbl : List node_record) (job : job_record) : JobWatts :=
  (List.range tbl.length).foldl (job_stats_step tbl job) ⟨0, 0, 0, INFINITE⟩

/-- A node table position the levelling pass treats as a member of the
job: the index is a set bit of the job's bitmap and the node there is
ready with a power record. -/
def member_at (tbl : List node_record) (job : job_record) (i : Nat) : Bool :=
  match tbl[i]? with
  | some n => level_member_node job i n
  | none => false

/-- Index list of the job's ready members. -/
def level_members (tbl : List node_record) (job : job_record) : List Nat :=
  (List.range tbl.length).filter (fun i => member_at tbl job i)

def cap_at (tbl : List node_record) (i : Nat) : Nat :=
  match tbl[i]? with
  | some n => node_cap n
  | none => 0

/-- Exact (unwrapped) sum of `new_cap_watts` over the job's ready
members — the Σ of claim C8. -/
def job_sum (tbl : List node_record) (job : job_record) : Nat :=
  ((level_members tbl job).map (cap_at tbl)).sum

/-- Number of ready members — the count of claim C8. -/
def job_cnt (tbl : List node_record) (job : job_record) : Nat :=
  (level_members tbl job).length

def set_new_cap (v : Nat) (n : node_record) : node_record :=
  { n with power := n.power.map (fun p => { p with new_cap_watts := v }) }

/-- Second pass of lines 1384-1393: assign the average to every ready
member. -/
def apply_level (job : job_record) (v : Nat) : Nat → List node_record → List node_record
  | _, [] => []
  | i, n :: rest =>
    (if level_member_node job i n then set_new_cap v n else n)
      :: apply_level job v (i + 1) rest

def level_one_job (tbl : List node_record) (job : job_record) : List node_record :=
  let s := job_stats tbl job
  if s.total_nodes < 2 then tbl
  else if s.min_watts = s.max_watts then tbl
  else apply_level job (s.total_watts / s.total_nodes) 0 tbl

/-- Selection at lines 1342-1347: the job must be running, and either
`job_level` is not NO_VAL (force-on, given the caller already ruled
out 0) or the job carries the level flag. -/
def job_selected (job_level : Nat) (j : job_record) : Bool :=
  j.running && !(job_level == NO_VAL && !j.power_flags_level)

def _level_power_by_job (job_level : Nat) (jobs : List job_record)
    (tbl : List node_record) : List node_record :=
  jobs.foldl (fun t j => if job_selected job_level j then level_one_job t j else t) tbl

/-- Phase D as invoked at lines 1536-1537: `_level_power_by_job` runs
only when `job_level != 0`. -/
def phaseD (job_level : Nat) (jobs : List job_record) (tbl : List node_record) :
    List node_record :=
  if job_level ≠ 0 then _level_power_by_job job_level jobs tbl else tbl

/-! ### Phase E (`build_change_list`, lines 1539-1590)

The outer walk emits one change record per node whose installed cap
differs from the proposed cap; the inner walk (lines 1571-1589) folds
every later node with a pending change into that record — skipping
only decreases when the record is an increase — and marks folded nodes
by `cap_watts := new_cap_watts`.  (The source's inner loop bound
`j < node_record_count` additionally runs past the end of the table,
which is undefined behaviour; the embedding walks the in-bounds
remainder.)  Fuel equal to the table length drives the outer
recursion; the inner fold preserves length, so the fuel never runs
out on reachable inputs. -/

def fold_same_change (increase_power : Bool) :
    List node_record → List Nat × List node_record
  | [] => ([], [])
  | m :: ms =>
    match m.power with
    | none =>
      let r := fold_same_change increase_power ms
      (r.1, m :: r.2)
    | some q =>
      if q.cap_watts = q.new_cap_watts then
        let r := fold_same_change increase_power ms
        (r.1, m :: r.2)
      else if q.cap_watts > q.new_cap_watts ∧ increase_power = true then
        let r := fold_same_change increase_power ms
        (r.1, m :: r.2)
      else
        let r := fold_same_change increase_power ms
        (m.nid :: r.1, { m with power := some { q with cap_watts := q.new_cap_watts } } :: r.2)

def build_change_go : Nat → List node_record → List power_by_nodes
  | 0, _ => []
  | _ + 1, [] => []
  | fuel + 1, n :: rest =>
    match n.power with
    | none => build_change_go fuel rest
    | some p =>
      if p.cap_watts = p.new_cap_watts then build_change_go fuel rest
      else
        let inc := decide (p.cap_watts < p.new_cap_watts)
        let r := fold_same_change inc rest
        { alloc_watts := p.new_cap_watts, increase_power := inc, nodes := n.nid :: r.1 }
          :: build_change_go fuel r.2

def build_change_list (tbl : List node_record) : List power_by_nodes :=
  build_change_go tbl.length tbl

/-- The allocator through Phase D (the node-table side effect of
`_rebalance_node_power`; Phase E then derives the change list). -/
def _rebalance_node_power (cfg : power_config) (recent : Nat) (jobs : List job_record)
    (tbl : List node_record) : List node_record :=
  let a := lower_caps cfg initCnt tbl
  let b := reduce_caps cfg a.1 a.2
  let c := if a.2.node_power_raise_cnt ≠ 0 then
      raise_loop cfg recent (b.2.2 / a.2.node_power_raise_cnt) b.2.2
        a.2.node_power_raise_cnt b.1
    else b.1
  if cfg.job_level ≠ 0 then _level_power_by_job cfg.job_level jobs c else c

/-! ## Well-formedness and the cap-bound invariant (claims C2, C3)

`NodeWF` collects the telemetry sanity conditions under which the
allocator's arithmetic does not wrap: the capability range is ordered
and fits in 32 bits, and a nonzero installed cap lies inside the range
with the measured wattage no higher than the cap. -/

def NodeWF (p : power_mgmt_data) : Prop :=
  p.min_watts ≤ p.max_watts ∧ p.max_watts < W32 ∧ p.cap_watts < W32 ∧
  p.current_watts < W32 ∧
  (p.cap_watts ≠ 0 →
    p.min_watts ≤ p.cap_watts ∧ p.cap_watts ≤ p.max_watts ∧
    p.current_watts ≤ p.cap_watts)

instance (p : power_mgmt_data) : Decidable (NodeWF p) := by
  unfold NodeWF; infer_instance

/-- The per-node conclusion of claim C2 (amended): the proposed cap is
within the capability range, or the node was left unplaced
(`new_cap_watts = 0`), which only happens to ready nodes. -/
def CapBound (p : power_mgmt_data) : Prop :=
  (p.min_watts ≤ p.new_cap_watts ∧ p.new_cap_watts ≤ p.max_watts) ∨
  (p.new_cap_watts = 0 ∧ p.state = 1)

instance (p : power_mgmt_data) : Decidable (CapBound p) := by
  unfold CapBound; infer_instance

instance (P : power_mgmt_data → Prop) [DecidablePred P] (o : Option power_mgmt_data) :
    Decidable (∀ p, o = some p → P p) :=
  match o with
  | none => isTrue (by intro p hp; cases hp)
  | some a => decidable_of_iff (P a) (by simp)

def NodeInv (n : node_record) : Prop :=
  ∀ p, n.power = some p → NodeWF p ∧ CapBound p

def phaseA (cfg : power_config) (tbl : List node_record) :
    List node_record × RebalanceCnt :=
  lower_caps cfg initCnt tbl

/-! ## Theorems -/

theorem sub32_eq_sub {a b : Nat} (hba : b ≤ a) (ha : a < W32) :
    sub32 a b = a - b := by
  unfold sub32
  have h1 : a + W32 - b = (a - b) + W32 := by omega
  rw [h1, Nat.add_mod_right, Nat.mod_eq_of_lt (by omega)]

theorem sub32_lt (a b : Nat) : sub32 a b < W32 :=
  Nat.mod_lt _ (by unfold W32; omega)

theorem mul32_lt (a b : Nat) : mul32 a b < W32 :=
  Nat.mod_lt _ (by unfold W32; omega)

theorem add32_lt (a b : Nat) : add32 a b < W32 :=
  Nat.mod_lt _ (by unfold W32; omega)

theorem add32_eq_add {a b : Nat} (h : a + b < W32) : add32 a b = a + b :=
  Nat.mod_eq_of_lt h

/-- C4, counterexample: with equal nonzero timestamps (`prev_time = t
= 5`) and a joule increase of 10^6, the claim's formula takes the wrap
branch (`5 + 86_400_000_000 > 5`) and yields ⌊10^12 / 86_400_000_000⌋
= 11 watts, but the source leaves the estimate at 0 because its wrap
branch requires `t < prev_time`. -/
theorem C4_estimator_cex :
    spec_energy_update 0 5 1000000 5 = (11, 1000000, 5) ∧
    energy_counter_update 0 5 1000000 5 = (0, 1000000, 5) ∧ (11 : Nat) ≠ 0 :=
  ⟨by decide, by decide, by decide⟩

/-- C4: for every node processed by the energy ingest, provided the
64-bit product `Δj × 10^6` does not overflow and the resulting watts
value fits in 32 bits, the source's update equals the amended spec
formula: zero timestamps or non-increasing joules leave the estimate
at 0; otherwise Δt is the positive difference, or the single midnight
wrap when the fresh timestamp is strictly earlier; `current_watts =
⌊Δj × 10^6 / Δt⌋`; and the fresh `(joules, time_usec)` pair is always
stored. -/
theorem C4_estimator_amended (prev_joules prev_time j t : Nat)
    (hmul : (j - prev_joules) * 1000000 < W64)
    (hres : prev_joules < j → energy_delta_time prev_time t ≠ 0 →
      (j - prev_joules) * 1000000 / energy_delta_time prev_time t < W32) :
    energy_counter_update prev_joules prev_time j t =
      spec_energy_update_amended prev_joules prev_time j t := by
  have hm : mul64 (j - prev_joules) 1000000 = (j - prev_joules) * 1000000 :=
    Nat.mod_eq_of_lt hmul
  unfold energy_counter_update spec_energy_update_amended
  refine congrArg (fun w => (w, j, t)) ?_
  by_cases h0 : t = 0 ∨ prev_time = 0
  · have hdt : energy_delta_time prev_time t = 0 := by
      unfold energy_delta_time
      rw [if_pos h0]
    rw [if_neg (show ¬ (energy_delta_time prev_time t ≠ 0 ∧ prev_joules < j) from by
          rw [hdt]; simp),
      if_pos (show t = 0 ∨ prev_time = 0 ∨ j ≤ prev_joules from by tauto)]
  · push_neg at h0
    obtain ⟨ht0, hp0⟩ := h0
    by_cases hj : j ≤ prev_joules
    · rw [if_neg (show ¬ (energy_delta_time prev_time t ≠ 0 ∧ prev_joules < j) from
            fun h => absurd h.2 (by omega)),
        if_pos (show t = 0 ∨ prev_time = 0 ∨ j ≤ prev_joules from Or.inr (Or.inr hj))]
    · push_neg at hj
      have hA : ¬ (t = 0 ∨ prev_time = 0 ∨ j ≤ prev_joules) := by
        push_neg
        exact ⟨ht0, hp0, by omega⟩
      by_cases hgt : t > prev_time
      · have hdt : energy_delta_time prev_time t = t - prev_time := by
          unfold energy_delta_time
          rw [if_neg (by tauto), if_pos hgt]
        have hne : energy_delta_time prev_time t ≠ 0 := by rw [hdt]; omega
        rw [if_pos (show energy_delta_time prev_time t ≠ 0 ∧ prev_joules < j from ⟨hne, hj⟩),
          hm, hdt, if_neg hA, if_pos hgt,
          Nat.mod_eq_of_lt (by have := hres hj hne; rw [hdt] at this; exact this)]
      · by_cases hwrap : t < prev_time ∧ t + usecs_day > prev_time
        · have hdt : energy_delta_time prev_time t = t + usecs_day - prev_time := by
            unfold energy_delta_time
            rw [if_neg (by tauto), if_neg (by omega), if_pos hwrap]
          have hne : energy_delta_time prev_time t ≠ 0 := by
            have h2 := hwrap.2
            rw [hdt]; omega
          rw [if_pos (show energy_delta_time prev_time t ≠ 0 ∧ prev_joules < j from ⟨hne, hj⟩),
            hm, hdt, if_neg hA, if_neg hgt, if_pos hwrap,
            Nat.mod_eq_of_lt (by have := hres hj hne; rw [hdt] at this; exact this)]
        · have hdt : energy_delta_time prev_time t = 0 := by
            unfold energy_delta_time
            rw [if_neg (by tauto), if_neg hgt, if_neg hwrap]
          rw [if_neg (show ¬ (energy_delta_time prev_time t ≠ 0 ∧ prev_joules < j) from by
                rw [hdt]; simp),
            if_neg hA, if_neg hgt, if_neg hwrap]

/-- C4 witness: the spec's midnight-wrap scenario.  prev = (1_000_000 J,
86_399_000_000 µs), fresh = (1_002_000 J, 1_000_000 µs): Δt =
2_000_000 µs and the estimate is 1000 W, with the fresh pair stored. -/
theorem C4_estimator_amended_witness :
    energy_counter_update 1000000 86399000000 1002000 1000000 =
      (1000, 1002000, 1000000) :=
  (C4_estimator_amended 1000000 86399000000 1002000 1000000
      (by decide) (fun _ _ => by decide)).trans (by decide)

/-- C6: configuring `decrease_rate=0` leaves `decrease_rate` itself at
the invalid value 0 and clobbers `lower_threshold` with 50
(`DEFAULT_DECREASE_RATE`); configuring `increase_rate=0` leaves
`increase_rate` at 0 and clobbers `lower_threshold` with 20.  The
claim — the offending key, and no other, is reset to its own default —
is violated by the source's validators for both rate keys. -/
theorem C6_config_reset_eval :
    _load_config default_config { no_params with decrease_rate := some 0 } =
      { default_config with decrease_rate := 0, lower_threshold := 50 } ∧
    (_load_config default_config
        { no_params with decrease_rate := some 0 }).decrease_rate ≠
      default_config.decrease_rate ∧
    (_load_config default_config
        { no_params with decrease_rate := some 0 }).lower_threshold ≠
      default_config.lower_threshold ∧
    _load_config default_config { no_params with increase_rate := some 0 } =
      { default_config with increase_rate := 0, lower_threshold := 20 } := by
  refine ⟨by decide, by decide, by decide, by decide⟩

theorem parse_dec_cons_zero (l : List Char) : parse_dec ('0' :: l) = parse_dec l := by
  unfold parse_dec
  rw [List.foldl_cons]
  have h : (0 : Nat) * 10 + ('0'.toNat - 48) = 0 := by decide
  rw [h]

theorem skip_zeros_succ_cons (f : Nat) (c : Char) (rest : List Char) :
    skip_zeros (f + 1) (c :: rest) = if c = '0' then skip_zeros f rest else c :: rest := rfl

theorem parse_dec_skip_zeros (fuel : Nat) :
    ∀ l : List Char, parse_dec (skip_zeros fuel l) = parse_dec l := by
  induction fuel with
  | zero => intro l; rfl
  | succ f ih =>
    intro l
    match l with
    | [] => rfl
    | c :: rest =>
      by_cases hc : c = '0'
      · subst hc
        rw [skip_zeros_succ_cons, if_pos rfl, ih rest, parse_dec_cons_zero]
      · rw [skip_zeros_succ_cons, if_neg hc]

theorem digitChar_toNat {d : Nat} (h : d < 10) : (Nat.digitChar d).toNat - 48 = d := by
  interval_cases d <;> decide

/-- C9: for every nid `n ≤ 99999`, rendering the node name
`"nid" ++ zero-pad(n, 5)` as `_parse_nids` does, stripping the prefix
and leading zeros as `_node_name2nid` does, and reading the remaining
decimal digits yields `n` again. -/
theorem C9_nid_round_trip (n : Nat) (h : n ≤ 99999) :
    parse_dec (_node_name2nid (nid_node_name n)) = n := by
  show parse_dec (skip_zeros 4 (zero_pad5 n)) = n
  rw [parse_dec_skip_zeros]
  unfold parse_dec zero_pad5
  simp only [List.foldl_cons, List.foldl_nil]
  rw [digitChar_toNat (Nat.mod_lt _ (by omega)), digitChar_toNat (Nat.mod_lt _ (by omega)),
    digitChar_toNat (Nat.mod_lt _ (by omega)), digitChar_toNat (Nat.mod_lt _ (by omega)),
    digitChar_toNat (Nat.mod_lt _ (by omega))]
  omega

/-- C9 witness: the round trip at n = 907 (name "nid00907"). -/
theorem C9_nid_round_trip_witness :
    907 ≤ 99999 ∧ parse_dec (_node_name2nid (nid_node_name 907)) = 907 :=
  ⟨by decide, C9_nid_round_trip 907 (by decide)⟩

theorem decrease_pass_not_inc (ok : power_by_nodes → Bool) :
    ∀ l : List power_by_nodes, ∀ r ∈ (decrease_pass ok l).1, r.increase_power = false := by
  intro l
  induction l with
  | nil => intro r hr; cases hr
  | cons a rs ih =>
    intro r hr
    unfold decrease_pass at hr
    by_cases ha : a.increase_power
    · rw [if_pos ha] at hr
      exact ih r hr
    · rw [if_neg ha] at hr
      by_cases hok : ok a
      · rw [if_pos hok] at hr
        rcases List.mem_cons.mp hr with h | h
        · subst h; exact Bool.eq_false_iff.mpr ha
        · exact ih r h
      · rw [if_neg hok] at hr
        rcases List.mem_cons.mp hr with h | h
        · subst h; exact Bool.eq_false_iff.mpr ha
        · cases h

theorem decrease_pass_complete (ok : power_by_nodes → Bool) :
    ∀ l : List power_by_nodes, (decrease_pass ok l).2 = false →
      ∀ s ∈ l, s.increase_power = false → s ∈ (decrease_pass ok l).1 := by
  intro l
  induction l with
  | nil => intro _ s hs; cases hs
  | cons a rs ih =>
    intro hab s hs hsf
    unfold decrease_pass at hab ⊢
    by_cases ha : a.increase_power
    · rw [if_pos ha] at hab ⊢
      rcases List.mem_cons.mp hs with h | h
      · subst h; rw [hsf] at ha; cases ha
      · exact ih hab s h hsf
    · rw [if_neg ha] at hab ⊢
      by_cases hok : ok a
      · rw [if_pos hok] at hab ⊢
        rcases List.mem_cons.mp hs with h | h
        · subst h; exact List.mem_cons_self _ _
        · exact List.mem_cons_of_mem _ (ih hab s h hsf)
      · rw [if_neg hok] at hab
        cases hab

/-- C5: in every execution of the cap applier, the dispatch order puts
every decrease record before every increase record: if a dispatched
record at position `i` is an increase, every later dispatched record
is an increase as well; and whenever any increase is dispatched at
all, every decrease record of the change list was dispatched (in pass
1, hence earlier). -/
theorem C5_applier_order (ok : power_by_nodes → Bool) (l : List power_by_nodes) :
    (∀ i j : Nat, i < j → ∀ ri rj, (_set_power_caps ok l)[i]? = some ri →
      (_set_power_caps ok l)[j]? = some rj →
      ri.increase_power = true → rj.increase_power = true) ∧
    (∀ r ∈ _set_power_caps ok l, r.increase_power = true →
      ∀ s ∈ l, s.increase_power = false → s ∈ _set_power_caps ok l) := by
  unfold _set_power_caps
  by_cases hab : (decrease_pass ok l).2
  · rw [if_pos hab]
    constructor
    · intro i j _ ri rj hi _ hinc
      have : ri ∈ (decrease_pass ok l).1 := List.getElem?_mem hi
      rw [decrease_pass_not_inc ok l ri this] at hinc
      cases hinc
    · intro r hr hinc
      rw [decrease_pass_not_inc ok l r hr] at hinc
      cases hinc
  · rw [if_neg hab]
    constructor
    · intro i j hij ri rj hi hj hinc
      have hilen : ¬ i < (decrease_pass ok l).1.length := by
        intro hlt
        rw [List.getElem?_append_left hlt] at hi
        have : ri ∈ (decrease_pass ok l).1 := List.getElem?_mem hi
        rw [decrease_pass_not_inc ok l ri this] at hinc
        cases hinc
      have hjlen : (decrease_pass ok l).1.length ≤ j := by omega
      rw [List.getElem?_append_right hjlen] at hj
      have : rj ∈ l.filter (fun r => r.increase_power) := List.getElem?_mem hj
      exact (List.mem_filter.mp this).2
    · intro r _ _ s hs hsf
      exact List.mem_append_left _
        (decrease_pass_complete ok l (Bool.eq_false_iff.mpr hab) s hs hsf)

/-- C5 witness: with a change list of two increase records and a
succeeding agent, the record dispatched after position 0 is an
increase. -/
theorem C5_applier_order_witness :
    (0 : Nat) < 1 ∧
      (power_by_nodes.mk 7 true [2]).increase_power = true :=
  ⟨by decide,
    (C5_applier_order (fun _ => true)
        [power_by_nodes.mk 5 true [1], power_by_nodes.mk 7 true [2]]).1
      0 1 (by decide) (power_by_nodes.mk 5 true [1]) (power_by_nodes.mk 7 true [2])
      (by decide) (by decide) (by decide)⟩

/-- C1: the source classifies a ready node as under-using by comparing
`current_watts < cap_watts * lower_threshold` with no percent scaling
(line 1434).  A node at cap 300 W drawing 295 W with thresholds 90/95
is therefore lowered (lower count 1, new cap 298 = 300 - min(150,
(300-295)/2)), even though per the claim's comparison `current × 100 ≥
cap × upper_threshold` (29500 ≥ 28500) it is pressing and should have
been left at 0 for Phase C. -/
theorem C1_threshold_code_eval :
    (lower_caps ⟨30, 1000, 50, 20, 0, 90, 300, 95⟩ initCnt
        [⟨1, some ⟨300, 295, 0, 400, 100, 0, 0, 1, 0⟩⟩]).2.node_power_lower_cnt = 1 ∧
    (lower_caps ⟨30, 1000, 50, 20, 0, 90, 300, 95⟩ initCnt
        [⟨1, some ⟨300, 295, 0, 400, 100, 0, 0, 1, 0⟩⟩]).1 =
      [⟨1, some ⟨300, 295, 0, 400, 100, 298, 0, 1, 0⟩⟩] ∧
    300 * 90 ≤ 295 * 100 ∧ 300 * 95 ≤ 295 * 100 :=
  ⟨by decide, by decide, by decide, by decide⟩

/-- C10: a table whose only power-bearing node is not ready with an
installed cap of 1000 W against a 500 W budget drives Phase A to
`alloc_power = 1000 > cap_watts` with `node_power_lower_cnt =
node_power_same_cnt = 0`: the clawback branch executes and its
division `red1 /= (node_power_lower_cnt + node_power_same_cnt)`
divides by zero (undefined behaviour in C). -/
theorem C10_divisor_eval :
    ((lower_caps ⟨30, 500, 50, 20, 0, 90, 300, 95⟩ initCnt
        [⟨1, some ⟨1000, 0, 0, 1200, 100, 0, 0, 0, 0⟩⟩]).2.alloc_power >
      (500 : Nat)) ∧
    (lower_caps ⟨30, 500, 50, 20, 0, 90, 300, 95⟩ initCnt
        [⟨1, some ⟨1000, 0, 0, 1200, 100, 0, 0, 0, 0⟩⟩]).2.node_power_lower_cnt +
      (lower_caps ⟨30, 500, 50, 20, 0, 90, 300, 95⟩ initCnt
        [⟨1, some ⟨1000, 0, 0, 1200, 100, 0, 0, 0, 0⟩⟩]).2.node_power_same_cnt = 0 :=
  ⟨by decide, by decide⟩

/-- C2, counterexample: a single ready node with `cap_watts = 0`
(uninitialized) and `min_watts = 100` is left by the whole allocator
with `new_cap_watts = 0`: Phase A defers it, no node presses so Phase
C never runs, and the claim's bound `min_watts ≤ new_cap_watts` fails
(100 ≤ 0 is false) although the node's state is 1. -/
theorem C2_bounds_cex :
    _rebalance_node_power ⟨30, 50, 50, 20, 0, 90, 300, 95⟩ 0 []
        [⟨1, some ⟨0, 0, 0, 200, 100, 0, 0, 1, 0⟩⟩] =
      [⟨1, some ⟨0, 0, 0, 200, 100, 0, 0, 1, 0⟩⟩] ∧
    ¬ ((100 : Nat) ≤ 0) :=
  ⟨by decide, by decide⟩

/-- C3, counterexample: one ready in-band node with `new_cap_watts =
min_watts = 150` against a 50 W budget.  The clawback fires
(`alloc_power = 150 > 50`) with `lower_cnt + same_cnt = 1`, but the
node is already floored at `min_watts`, so nothing is reduced: the
placed sum stays 150, exceeding `cap_watts + rounding_slack` for every
`rounding_slack < 1`. -/
theorem C3_budget_cex :
    sum_new_cap (reduce_caps ⟨30, 50, 50, 20, 0, 1, 300, 2⟩
        (lower_caps ⟨30, 50, 50, 20, 0, 1, 300, 2⟩ initCnt
          [⟨1, some ⟨150, 150, 0, 200, 150, 0, 0, 1, 0⟩⟩]).1
        (lower_caps ⟨30, 50, 50, 20, 0, 1, 300, 2⟩ initCnt
          [⟨1, some ⟨150, 150, 0, 200, 150, 0, 0, 1, 0⟩⟩]).2).1 = 150 ∧
    (lower_caps ⟨30, 50, 50, 20, 0, 1, 300, 2⟩ initCnt
        [⟨1, some ⟨150, 150, 0, 200, 150, 0, 0, 1, 0⟩⟩]).2.node_power_lower_cnt +
      (lower_caps ⟨30, 50, 50, 20, 0, 1, 300, 2⟩ initCnt
        [⟨1, some ⟨150, 150, 0, 200, 150, 0, 0, 1, 0⟩⟩]).2.node_power_same_cnt = 1 ∧
    ¬ ((150 : Nat) < 50 + 1) :=
  ⟨by decide, by decide, by decide⟩

/-- C7: Phase E's inner fold does not compare the folded node's watts
value or require an equal direction.  With node 1 decreasing 200 → 180
and node 2 increasing 200 → 500, the emitted change list is a single
decrease record `alloc_watts = 180` carrying both nids, although node
2's proposed cap is 500 ≠ 180 and its direction (200 < 500, increase)
is not the record's.  The source's own comment (line 1571) says it
looks for nodes "with same change". -/
theorem C7_coalesce_eval :
    build_change_list
        [⟨1, some ⟨200, 0, 0, 400, 100, 180, 0, 1, 0⟩⟩,
         ⟨2, some ⟨200, 0, 0, 600, 100, 500, 0, 1, 0⟩⟩] =
      [⟨180, false, [1, 2]⟩] ∧
    (500 : Nat) ≠ 180 ∧ (200 : Nat) < 500 :=
  ⟨by decide, by decide, by decide⟩

theorem nodeWF_set_new_cap {p : power_mgmt_data} (h : NodeWF p) (v : Nat) :
    NodeWF { p with new_cap_watts := v } := h

theorem lower_caps_inv (cfg : power_config) :
    ∀ (tbl : List node_record) (acc : RebalanceCnt),
      (∀ n ∈ tbl, ∀ p, n.power = some p → NodeWF p) →
      ∀ n ∈ (lower_caps cfg acc tbl).1, NodeInv n := by
  intro tbl
  induction tbl with
  | nil =>
    intro acc _ n hn
    simp only [lower_caps] at hn
    cases hn
  | cons a rest ih =>
    intro acc hwf n hn
    have hwfa : ∀ p, a.power = some p → NodeWF p := hwf a (List.mem_cons_self a rest)
    have hwfrest : ∀ n ∈ rest, ∀ p, n.power = some p → NodeWF p :=
      fun m hm => hwf m (List.mem_cons_of_mem a hm)
    cases hp : a.power with
    | none =>
      simp only [lower_caps, hp] at hn
      rcases List.mem_cons.mp hn with h | h
      · subst h
        intro p hp2
        rw [hp] at hp2
        cases hp2
      · exact ih acc hwfrest n h
    | some p =>
      have hwfp : NodeWF p := hwfa p hp
      simp only [lower_caps, hp] at hn
      by_cases hst : p.state ≠ 1
      · rw [if_pos hst] at hn
        rcases List.mem_cons.mp hn with h | h
        · subst h
          intro q hq
          cases hq
          refine ⟨nodeWF_set_new_cap hwfp _, Or.inl ?_⟩
          by_cases hc : p.cap_watts = 0
          · simp only [hc, if_pos]
            exact ⟨hwfp.1, le_refl _⟩
          · simp only [hc, if_neg, if_false]
            exact ⟨(hwfp.2.2.2.2 hc).1, (hwfp.2.2.2.2 hc).2.1⟩
        · exact ih _ hwfrest n h
      · push_neg at hst
        by_cases hz : p.cap_watts = 0 ∨ p.current_watts = 0
        · rw [if_neg (by simpa using hst), if_pos hz] at hn
          rcases List.mem_cons.mp hn with h | h
          · subst h
            intro q hq
            cases hq
            exact ⟨nodeWF_set_new_cap hwfp _, Or.inr ⟨rfl, hst⟩⟩
          · exact ih _ hwfrest n h
        · push_neg at hz
          obtain ⟨hmc, hcm, hcur⟩ := hwfp.2.2.2.2 hz.1
          by_cases hlow : p.current_watts < mul32 p.cap_watts cfg.lower_threshold
          · rw [if_neg (by simpa using hst), if_neg (by push_neg; exact hz),
              if_pos hlow] at hn
            rcases List.mem_cons.mp hn with h | h
            · subst h
              intro q hq
              cases hq
              refine ⟨nodeWF_set_new_cap hwfp _, Or.inl ⟨le_max_right _ _, ?_⟩⟩
              have hsc : sub32 p.cap_watts p.current_watts = p.cap_watts - p.current_watts :=
                sub32_eq_sub hcur hwfp.2.2.1
              have have1 : (p.cap_watts - p.current_watts) / 2 ≤ p.cap_watts := by omega
              have hy : min (mul32 (sub32 p.max_watts p.min_watts) cfg.decrease_rate / 100)
                  (sub32 p.cap_watts p.current_watts / 2) ≤ p.cap_watts := by
                rw [hsc]
                exact le_trans (min_le_right _ _) have1
              have hnc : sub32 p.cap_watts
                  (min (mul32 (sub32 p.max_watts p.min_watts) cfg.decrease_rate / 100)
                    (sub32 p.cap_watts p.current_watts / 2)) ≤ p.cap_watts := by
                rw [sub32_eq_sub hy hwfp.2.2.1]
                omega
              exact max_le (le_trans hnc hcm) hwfp.1
            · exact ih _ hwfrest n h
          · by_cases hup : p.current_watts < mul32 p.cap_watts cfg.upper_threshold
            · rw [if_neg (by simpa using hst), if_neg (by push_neg; exact hz),
                if_neg hlow, if_pos hup] at hn
              rcases List.mem_cons.mp hn with h | h
              · subst h
                intro q hq
                cases hq
                exact ⟨nodeWF_set_new_cap hwfp _,
                  Or.inl ⟨le_max_right _ _, max_le hcm hwfp.1⟩⟩
              · exact ih _ hwfrest n h
            · rw [if_neg (by simpa using hst), if_neg (by push_neg; exact hz),
                if_neg hlow, if_neg hup] at hn
              rcases List.mem_cons.mp hn with h | h
              · subst h
                intro q hq
                cases hq
                exact ⟨nodeWF_set_new_cap hwfp _, Or.inr ⟨rfl, hst⟩⟩
              · exact ih _ hwfrest n h

theorem reduce_node_inv {red : Nat} {n : node_record} (h : NodeInv n) :
    NodeInv (reduce_node red n) := by
  cases hp : n.power with
  | none =>
    simp only [reduce_node, hp]
    exact h
  | some p =>
    obtain ⟨hwf, hbd⟩ := h p hp
    simp only [reduce_node, hp]
    by_cases hz : p.new_cap_watts = 0
    · rw [if_pos hz]
      exact h
    · rw [if_neg hz]
      intro q hq
      cases hq
      rcases hbd with ⟨hmin, hmax⟩ | ⟨h0, _⟩
      · have hlt : p.new_cap_watts < W32 := lt_of_le_of_lt hmax hwf.2.1
        have hs : sub32 p.new_cap_watts p.min_watts = p.new_cap_watts - p.min_watts :=
          sub32_eq_sub hmin hlt
        have ht : min (sub32 p.new_cap_watts p.min_watts) red ≤ p.new_cap_watts := by
          rw [hs]
          exact le_trans (min_le_left _ _) (Nat.sub_le _ _)
        have hval : sub32 p.new_cap_watts (min (sub32 p.new_cap_watts p.min_watts) red) =
            p.new_cap_watts - min (p.new_cap_watts - p.min_watts) red := by
          rw [sub32_eq_sub ht hlt, hs]
        refine ⟨nodeWF_set_new_cap hwf _, Or.inl ⟨?_, ?_⟩⟩
        · show p.min_watts ≤ sub32 p.new_cap_watts (min (sub32 p.new_cap_watts p.min_watts) red)
          rw [hval]
          have h1 := min_le_left (p.new_cap_watts - p.min_watts) red
          omega
        · show sub32 p.new_cap_watts (min (sub32 p.new_cap_watts p.min_watts) red) ≤ p.max_watts
          rw [hval]
          have h1 := Nat.sub_le p.new_cap_watts (min (p.new_cap_watts - p.min_watts) red)
          omega
      · exact absurd h0 hz

theorem reduce_caps_inv (cfg : power_config) (tbl : List node_record) (acc : RebalanceCnt)
    (h : ∀ n ∈ tbl, NodeInv n) :
    ∀ n ∈ (reduce_caps cfg tbl acc).1, NodeInv n := by
  unfold reduce_caps
  by_cases hc : acc.alloc_power > cfg.cap_watts ∨
      acc.node_power_needed > avail_power0 cfg acc
  · rw [if_pos hc]
    intro n hn
    obtain ⟨m, hm, rfl⟩ := List.mem_map.mp hn
    exact reduce_node_inv (h m hm)
  · rw [if_neg hc]
    exact h

theorem raise_loop_inv (cfg : power_config) (recent : Nat) :
    ∀ (tbl : List node_record) (ave avail rc : Nat),
      (∀ n ∈ tbl, NodeInv n) →
      ∀ n ∈ raise_loop cfg recent ave avail rc tbl, NodeInv n := by
  intro tbl
  induction tbl with
  | nil =>
    intro ave avail rc _ n hn
    simp only [raise_loop] at hn
    cases hn
  | cons a rest ih =>
    intro ave avail rc hinv n hn
    have hia : NodeInv a := hinv a (List.mem_cons_self a rest)
    have hirest : ∀ n ∈ rest, NodeInv n := fun m hm => hinv m (List.mem_cons_of_mem a hm)
    cases hp : a.power with
    | none =>
      simp only [raise_loop, hp] at hn
      rcases List.mem_cons.mp hn with h | h
      · subst h; exact hia
      · exact ih _ _ _ hirest n h
    | some p =>
      simp only [raise_loop, hp] at hn
      by_cases hz : p.new_cap_watts ≠ 0
      · rw [if_pos hz] at hn
        rcases List.mem_cons.mp hn with h | h
        · subst h; exact hia
        · exact ih _ _ _ hirest n h
      · rw [if_neg hz] at hn
        have hwfp : NodeWF p := (hia p hp).1
        have hbound : p.min_watts ≤ raise_node_cap cfg recent ave p ∧
            raise_node_cap cfg recent ave p ≤ p.max_watts := by
          unfold raise_node_cap
          constructor
          · exact le_min (le_trans (le_max_right _ _) (le_refl _)) hwfp.1
          · exact min_le_right _ _
        have hhead :
            NodeInv { a with power := some { p with new_cap_watts := raise_node_cap cfg recent ave p } } := by
          intro q hq
          cases hq
          exact ⟨nodeWF_set_new_cap hwfp _, Or.inl hbound⟩
        by_cases hr : rc - 1 = 0
        · rw [if_pos hr] at hn
          rcases List.mem_cons.mp hn with h | h
          · subst h; exact hhead
          · exact hirest n h
        · rw [if_neg hr] at hn
          rcases List.mem_cons.mp hn with h | h
          · subst h; exact hhead
          · exact ih _ _ _ hirest n h

theorem rebalance_no_level (cfg : power_config) (recent : Nat) (jobs : List job_record)
    (tbl : List node_record) (hjl : cfg.job_level = 0) :
    _rebalance_node_power cfg recent jobs tbl =
      (if (lower_caps cfg initCnt tbl).2.node_power_raise_cnt ≠ 0 then
        raise_loop cfg recent
          ((reduce_caps cfg (lower_caps cfg initCnt tbl).1
              (lower_caps cfg initCnt tbl).2).2.2 /
            (lower_caps cfg initCnt tbl).2.node_power_raise_cnt)
          (reduce_caps cfg (lower_caps cfg initCnt tbl).1
              (lower_caps cfg initCnt tbl).2).2.2
          (lower_caps cfg initCnt tbl).2.node_power_raise_cnt
          (reduce_caps cfg (lower_caps cfg initCnt tbl).1
              (lower_caps cfg initCnt tbl).2).1
      else (reduce_caps cfg (lower_caps cfg initCnt tbl).1
              (lower_caps cfg initCnt tbl).2).1) := by
  unfold _rebalance_node_power
  rw [hjl]
  simp

/-- C2 (amended): run the allocator with job levelling disabled
(`job_level = 0`) over any table whose power records satisfy `NodeWF`
(capability range ordered and within 32 bits; a nonzero installed cap
inside the range with measured watts at most the cap).  Every node
then ends with `min_watts ≤ new_cap_watts ≤ max_watts`, or ends
unplaced (`new_cap_watts = 0`) — the latter only for ready (`state =
1`) nodes.  Relative to the claim as written, the counterexample
forces the extra unplaced-ready-node case; not-ready nodes keep `cap
watts` (or `max_watts`) only up to Phase B's clawback, which may
lower them toward `min_watts` but never out of range. -/
theorem C2_bounds_amended (cfg : power_config) (recent : Nat) (jobs : List job_record)
    (tbl : List node_record) (hjl : cfg.job_level = 0)
    (hwf : ∀ n ∈ tbl, ∀ p, n.power = some p → NodeWF p) :
    ∀ n ∈ _rebalance_node_power cfg recent jobs tbl, ∀ p, n.power = some p →
      (p.min_watts ≤ p.new_cap_watts ∧ p.new_cap_watts ≤ p.max_watts) ∨
      (p.new_cap_watts = 0 ∧ p.state = 1) := by
  rw [rebalance_no_level cfg recent jobs tbl hjl]
  have h1 := lower_caps_inv cfg tbl initCnt hwf
  have h2 := reduce_caps_inv cfg (lower_caps cfg initCnt tbl).1
    (lower_caps cfg initCnt tbl).2 h1
  by_cases hr : (lower_caps cfg initCnt tbl).2.node_power_raise_cnt ≠ 0
  · rw [if_pos hr]
    intro n hn p hp
    exact ((raise_loop_inv cfg recent _ _ _ _ h2 n hn) p hp).2
  · rw [if_neg hr]
    intro n hn p hp
    exact ((h2 n hn) p hp).2

/-- C2 witness: a well-formed ready under-using node (cap 300 W, use
150 W, range [100, 400], budget 500 W) is lowered to 225 W, inside its
range. -/
theorem C2_bounds_amended_witness :
    ((100 : Nat) ≤ 225 ∧ (225 : Nat) ≤ 400) ∨ ((225 : Nat) = 0 ∧ (1 : Nat) = 1) :=
  C2_bounds_amended ⟨30, 500, 50, 20, 0, 90, 300, 95⟩ 0 []
    [⟨1, some ⟨300, 150, 0, 400, 100, 0, 0, 1, 0⟩⟩] rfl (by decide)
    ⟨1, some ⟨300, 150, 0, 400, 100, 225, 0, 1, 0⟩⟩ (by decide)
    ⟨300, 150, 0, 400, 100, 225, 0, 1, 0⟩ rfl

/-! ## Budget accounting through Phases A and B (claim C3) -/

theorem lower_caps_alloc_step (cfg : power_config) (rest : List node_record)
    (acc2 : RebalanceCnt) (accAlloc v : Nat)
    (hacc : acc2.alloc_power = add32 accAlloc v)
    (hbound : accAlloc + (v + sum_new_cap (lower_caps cfg acc2 rest).1) < W32)
    (ih : acc2.alloc_power + sum_new_cap (lower_caps cfg acc2 rest).1 < W32 →
      (lower_caps cfg acc2 rest).2.alloc_power =
        acc2.alloc_power + sum_new_cap (lower_caps cfg acc2 rest).1) :
    (lower_caps cfg acc2 rest).2.alloc_power =
      accAlloc + (v + sum_new_cap (lower_caps cfg acc2 rest).1) := by
  have hv : add32 accAlloc v = accAlloc + v := add32_eq_add (by omega)
  rw [ih (by rw [hacc, hv]; omega), hacc, hv]
  omega

theorem lower_caps_alloc (cfg : power_config) :
    ∀ (tbl : List node_record) (acc : RebalanceCnt),
      acc.alloc_power + sum_new_cap (lower_caps cfg acc tbl).1 < W32 →
      (lower_caps cfg acc tbl).2.alloc_power =
        acc.alloc_power + sum_new_cap (lower_caps cfg acc tbl).1 := by
  intro tbl
  induction tbl with
  | nil =>
    intro acc _
    simp [lower_caps, sum_new_cap]
  | cons a rest ih =>
    intro acc hbound
    cases hp : a.power with
    | none =>
      simp only [lower_caps, hp] at hbound ⊢
      simp only [sum_new_cap, node_cap, hp, Nat.zero_add] at hbound ⊢
      exact ih acc hbound
    | some p =>
      by_cases hst : p.state ≠ 1
      · simp only [lower_caps, hp, if_pos hst] at hbound ⊢
        simp only [sum_new_cap, node_cap] at hbound ⊢
        exact lower_caps_alloc_step cfg rest _ acc.alloc_power _ rfl hbound (ih _)
      · by_cases hz : p.cap_watts = 0 ∨ p.current_watts = 0
        · simp only [lower_caps, hp, if_neg hst, if_pos hz] at hbound ⊢
          simp only [sum_new_cap, node_cap, Nat.zero_add] at hbound ⊢
          exact ih acc hbound
        · by_cases hlow : p.current_watts < mul32 p.cap_watts cfg.lower_threshold
          · simp only [lower_caps, hp, if_neg hst, if_neg hz, if_pos hlow] at hbound ⊢
            simp only [sum_new_cap, node_cap] at hbound ⊢
            exact lower_caps_alloc_step cfg rest _ acc.alloc_power _ rfl hbound (ih _)
          · by_cases hup : p.current_watts < mul32 p.cap_watts cfg.upper_threshold
            · simp only [lower_caps, hp, if_neg hst, if_neg hz, if_neg hlow,
                if_pos hup] at hbound ⊢
              simp only [sum_new_cap, node_cap] at hbound ⊢
              exact lower_caps_alloc_step cfg rest _ acc.alloc_power _ rfl hbound (ih _)
            · simp only [lower_caps, hp, if_neg hst, if_neg hz, if_neg hlow,
                if_neg hup] at hbound ⊢
              simp only [sum_new_cap, node_cap, Nat.zero_add] at hbound ⊢
              exact ih _ hbound

theorem lower_caps_count (cfg : power_config) :
    ∀ (tbl : List node_record) (acc : RebalanceCnt),
      (∀ n ∈ tbl, ∀ p, n.power = some p → 0 < p.min_watts) →
      (lower_caps cfg acc tbl).2.node_power_lower_cnt +
          (lower_caps cfg acc tbl).2.node_power_same_cnt ≤
        acc.node_power_lower_cnt + acc.node_power_same_cnt +
          placed_cnt (lower_caps cfg acc tbl).1 := by
  intro tbl
  induction tbl with
  | nil =>
    intro acc _
    simp [lower_caps, placed_cnt]
  | cons a rest ih =>
    intro acc hmin
    have hminrest : ∀ n ∈ rest, ∀ p, n.power = some p → 0 < p.min_watts :=
      fun m hm => hmin m (List.mem_cons_of_mem a hm)
    cases hp : a.power with
    | none =>
      simp only [lower_caps, hp, placed_cnt]
      have h1 := ih acc hminrest
      omega
    | some p =>
      have hminp : 0 < p.min_watts := hmin a (List.mem_cons_self a rest) p hp
      by_cases hst : p.state ≠ 1
      · simp only [lower_caps, hp, if_pos hst, placed_cnt]
        set v := (if p.cap_watts = 0 then p.max_watts else p.cap_watts) with hvdef
        have h1 := ih { acc with alloc_power := add32 acc.alloc_power v } hminrest
        dsimp only at h1
        omega
      · by_cases hz : p.cap_watts = 0 ∨ p.current_watts = 0
        · simp only [lower_caps, hp, if_neg hst, if_pos hz, placed_cnt]
          have h1 := ih acc hminrest
          omega
        · by_cases hlow : p.current_watts < mul32 p.cap_watts cfg.lower_threshold
          · simp only [lower_caps, hp, if_neg hst, if_neg hz, if_pos hlow, placed_cnt]
            set v := (max (sub32 p.cap_watts
              (min (mul32 (sub32 p.max_watts p.min_watts) cfg.decrease_rate / 100)
                (sub32 p.cap_watts p.current_watts / 2))) p.min_watts) with hvdef
            have hne : v ≠ 0 := by
              have h2 := le_max_right (sub32 p.cap_watts
                (min (mul32 (sub32 p.max_watts p.min_watts) cfg.decrease_rate / 100)
                  (sub32 p.cap_watts p.current_watts / 2))) p.min_watts
              rw [hvdef]
              omega
            rw [if_pos hne]
            have h1 := ih { acc with alloc_power := add32 acc.alloc_power v, node_power_lower_cnt := acc.node_power_lower_cnt + 1 } hminrest
            dsimp only at h1
            omega
          · by_cases hup : p.current_watts < mul32 p.cap_watts cfg.upper_threshold
            · simp only [lower_caps, hp, if_neg hst, if_neg hz, if_neg hlow,
                if_pos hup, placed_cnt]
              set v := max p.cap_watts p.min_watts with hvdef
              have hne : v ≠ 0 := by
                have h2 := le_max_right p.cap_watts p.min_watts
                rw [hvdef]
                omega
              rw [if_pos hne]
              have h1 := ih { acc with alloc_power := add32 acc.alloc_power v, node_power_same_cnt := acc.node_power_same_cnt + 1 } hminrest
              dsimp only at h1
              omega
            · simp only [lower_caps, hp, if_neg hst, if_neg hz, if_neg hlow,
                if_neg hup, placed_cnt]
              have h1 := ih { acc with node_power_raise_cnt := acc.node_power_raise_cnt + 1, node_power_needed := add32 acc.node_power_needed p.min_watts } hminrest
              dsimp only at h1
              omega

theorem node_reduce_facts {red : Nat} {n : node_record} (h : NodeInv n) :
    node_reduction red n ≤ node_cap n ∧
    node_cap (reduce_node red n) = node_cap n - node_reduction red n := by
  cases hp : n.power with
  | none => simp [node_reduction, reduce_node, node_cap, hp]
  | some p =>
    by_cases hz : p.new_cap_watts = 0
    · simp [node_reduction, reduce_node, node_cap, hp, hz]
    · obtain ⟨hwf, hbd⟩ := h p hp
      rcases hbd with ⟨hmin, hmax⟩ | ⟨h0, _⟩
      · have hlt : p.new_cap_watts < W32 := lt_of_le_of_lt hmax hwf.2.1
        have hs : sub32 p.new_cap_watts p.min_watts = p.new_cap_watts - p.min_watts :=
          sub32_eq_sub hmin hlt
        have ht : min (sub32 p.new_cap_watts p.min_watts) red ≤ p.new_cap_watts := by
          rw [hs]
          exact le_trans (min_le_left _ _) (Nat.sub_le _ _)
        simp only [node_reduction, reduce_node, node_cap, hp, if_neg hz]
        exact ⟨ht, sub32_eq_sub ht hlt⟩
      · exact absurd h0 hz

theorem sum_reduce (red : Nat) :
    ∀ tbl : List node_record, (∀ n ∈ tbl, NodeInv n) →
      red_total red tbl ≤ sum_new_cap tbl ∧
      sum_new_cap (tbl.map (reduce_node red)) = sum_new_cap tbl - red_total red tbl := by
  intro tbl
  induction tbl with
  | nil => intro _; simp [red_total, sum_new_cap]
  | cons a rest ih =>
    intro hinv
    obtain ⟨hle, heq⟩ := @node_reduce_facts red a
      (hinv a (List.mem_cons_self a rest))
    obtain ⟨ihle, iheq⟩ := ih (fun m hm => hinv m (List.mem_cons_of_mem a hm))
    constructor
    · simp only [red_total, sum_new_cap]
      omega
    · simp only [List.map_cons, sum_new_cap, red_total, heq, iheq]
      omega

theorem red_total_ge (red : Nat) :
    ∀ tbl : List node_record, (∀ n ∈ tbl, NodeInv n) →
      (∀ n ∈ tbl, ∀ p, n.power = some p → p.new_cap_watts ≠ 0 →
        red + p.min_watts ≤ p.new_cap_watts) →
      red * placed_cnt tbl ≤ red_total red tbl := by
  intro tbl
  induction tbl with
  | nil => intro _ _; simp [placed_cnt, red_total]
  | cons a rest ih =>
    intro hinv hnf
    have ihr := ih (fun m hm => hinv m (List.mem_cons_of_mem a hm))
      (fun m hm => hnf m (List.mem_cons_of_mem a hm))
    cases hp : a.power with
    | none =>
      simp only [placed_cnt, red_total, node_reduction, hp, Nat.zero_add]
      exact ihr
    | some p =>
      by_cases hz : p.new_cap_watts = 0
      · simp only [placed_cnt, red_total, node_reduction, hp, hz, eq_self_iff_true,
          if_true, ne_eq, not_true_eq_false, if_false, Nat.zero_add]
        exact ihr
      · have hnfp := hnf a (List.mem_cons_self a rest) p hp hz
        obtain ⟨hwf, hbd⟩ := hinv a (List.mem_cons_self a rest) p hp
        rcases hbd with ⟨hmin, hmax⟩ | ⟨h0, _⟩
        · have hlt : p.new_cap_watts < W32 := lt_of_le_of_lt hmax hwf.2.1
          have hs : sub32 p.new_cap_watts p.min_watts = p.new_cap_watts - p.min_watts :=
            sub32_eq_sub hmin hlt
          simp only [placed_cnt, red_total, node_reduction, hp, if_neg hz, hs,
            if_pos (show p.new_cap_watts ≠ 0 from hz)]
          have hminred : min (p.new_cap_watts - p.min_watts) red = red :=
            min_eq_right (by omega)
          rw [hminred]
          have hdist : red * (1 + placed_cnt rest) = red + red * placed_cnt rest := by ring
          rw [hdist]
          omega
        · exact absurd h0 hz

theorem div_mul_lower (D L : Nat) (hL : 0 < L) : D < L * (D / L) + L := by
  have hdm := Nat.div_add_mod D L
  have hml : D % L < L := Nat.mod_lt _ hL
  generalize hq : L * (D / L) = q at hdm ⊢
  generalize hr : D % L = r at hdm hml
  omega

/-- C3 (amended): after Phase B's clawback, the sum of proposed caps
is below `cap_watts + lower_cnt + same_cnt` (that is, at most
`cap_watts` plus a rounding slack strictly smaller than
`lower_cnt + same_cnt`), for every table of well-formed records with
positive `min_watts` whose Phase-A sum fits in 32 bits, at least one
lower/same-classified node, and — the condition the counterexample
forces — no placed node floored at its minimum: the per-node reduction
`red` must fit under every placed node's `new_cap_watts - min_watts`.
Without that condition the floor `min_watts` absorbs part of the
required reduction and the bound fails. -/
theorem C3_budget_amended (cfg : power_config) (tbl : List node_record)
    (hwf : ∀ n ∈ tbl, ∀ p, n.power = some p → NodeWF p)
    (hminpos : ∀ n ∈ tbl, ∀ p, n.power = some p → 0 < p.min_watts)
    (hsum : sum_new_cap (phaseA cfg tbl).1 < W32)
    (hls : 0 < (phaseA cfg tbl).2.node_power_lower_cnt +
      (phaseA cfg tbl).2.node_power_same_cnt)
    (hnofloor : ∀ n ∈ (phaseA cfg tbl).1, ∀ p, n.power = some p →
      p.new_cap_watts ≠ 0 →
      claw_red cfg (phaseA cfg tbl).2 + p.min_watts ≤ p.new_cap_watts) :
    sum_new_cap (reduce_caps cfg (phaseA cfg tbl).1 (phaseA cfg tbl).2).1 <
      cfg.cap_watts + ((phaseA cfg tbl).2.node_power_lower_cnt +
        (phaseA cfg tbl).2.node_power_same_cnt) := by
  have hAinv : ∀ n ∈ (phaseA cfg tbl).1, NodeInv n :=
    lower_caps_inv cfg tbl initCnt hwf
  have halloc : (phaseA cfg tbl).2.alloc_power = sum_new_cap (phaseA cfg tbl).1 := by
    have h0 := lower_caps_alloc cfg tbl initCnt (by simpa [initCnt] using hsum)
    simpa [initCnt, phaseA] using h0
  unfold reduce_caps
  by_cases hfire : (phaseA cfg tbl).2.alloc_power > cfg.cap_watts ∨
      (phaseA cfg tbl).2.node_power_needed > avail_power0 cfg (phaseA cfg tbl).2
  · rw [if_pos hfire]
    obtain ⟨hrle, hreq⟩ :=
      sum_reduce (claw_red cfg (phaseA cfg tbl).2) (phaseA cfg tbl).1 hAinv
    rw [hreq]
    by_cases hac : (phaseA cfg tbl).2.alloc_power > cfg.cap_watts
    · have hneed : (phaseA cfg tbl).2.alloc_power - cfg.cap_watts ≤
          claw_need cfg (phaseA cfg tbl).2 := by
        unfold claw_need
        rw [if_pos hac]
        exact le_max_left _ _
      have hdm := div_mul_lower (claw_need cfg (phaseA cfg tbl).2)
        ((phaseA cfg tbl).2.node_power_lower_cnt +
          (phaseA cfg tbl).2.node_power_same_cnt) hls
      have hdm2 : claw_need cfg (phaseA cfg tbl).2 <
          claw_red cfg (phaseA cfg tbl).2 *
            ((phaseA cfg tbl).2.node_power_lower_cnt +
              (phaseA cfg tbl).2.node_power_same_cnt) +
            ((phaseA cfg tbl).2.node_power_lower_cnt +
              (phaseA cfg tbl).2.node_power_same_cnt) := by
        unfold claw_red
        rw [Nat.mul_comm]
        exact hdm
      have hplaced : (phaseA cfg tbl).2.node_power_lower_cnt +
          (phaseA cfg tbl).2.node_power_same_cnt ≤ placed_cnt (phaseA cfg tbl).1 := by
        have h0 := lower_caps_count cfg tbl initCnt hminpos
        simpa [initCnt, phaseA] using h0
      have hmul : claw_red cfg (phaseA cfg tbl).2 *
          ((phaseA cfg tbl).2.node_power_lower_cnt +
            (phaseA cfg tbl).2.node_power_same_cnt) ≤
          claw_red cfg (phaseA cfg tbl).2 * placed_cnt (phaseA cfg tbl).1 :=
        Nat.mul_le_mul_left _ hplaced
      have hrge := red_total_ge (claw_red cfg (phaseA cfg tbl).2) (phaseA cfg tbl).1
        hAinv hnofloor
      omega
    · have halle : (phaseA cfg tbl).2.alloc_power ≤ cfg.cap_watts := by omega
      omega
  · rw [if_neg hfire]
    push_neg at hfire
    dsimp only
    omega

/-- C3 witness: two ready in-band nodes at 300 W caps against a 500 W
budget; the clawback removes 50 W from each (no node is floored), and
the resulting sum 500 is within `cap_watts + lower_cnt + same_cnt`. -/
theorem C3_budget_amended_witness :
    sum_new_cap (reduce_caps ⟨30, 500, 50, 20, 0, 1, 300, 2⟩
        (phaseA ⟨30, 500, 50, 20, 0, 1, 300, 2⟩
          [⟨1, some ⟨300, 300, 0, 400, 100, 0, 0, 1, 0⟩⟩,
           ⟨2, some ⟨300, 300, 0, 400, 100, 0, 0, 1, 0⟩⟩]).1
        (phaseA ⟨30, 500, 50, 20, 0, 1, 300, 2⟩
          [⟨1, some ⟨300, 300, 0, 400, 100, 0, 0, 1, 0⟩⟩,
           ⟨2, some ⟨300, 300, 0, 400, 100, 0, 0, 1, 0⟩⟩]).2).1 <
      500 + ((phaseA ⟨30, 500, 50, 20, 0, 1, 300, 2⟩
          [⟨1, some ⟨300, 300, 0, 400, 100, 0, 0, 1, 0⟩⟩,
           ⟨2, some ⟨300, 300, 0, 400, 100, 0, 0, 1, 0⟩⟩]).2.node_power_lower_cnt +
        (phaseA ⟨30, 500, 50, 20, 0, 1, 300, 2⟩
          [⟨1, some ⟨300, 300, 0, 400, 100, 0, 0, 1, 0⟩⟩,
           ⟨2, some ⟨300, 300, 0, 400, 100, 0, 0, 1, 0⟩⟩]).2.node_power_same_cnt) :=
  C3_budget_amended ⟨30, 500, 50, 20, 0, 1, 300, 2⟩
    [⟨1, some ⟨300, 300, 0, 400, 100, 0, 0, 1, 0⟩⟩,
     ⟨2, some ⟨300, 300, 0, 400, 100, 0, 0, 1, 0⟩⟩]
    (by decide) (by decide) (by decide) (by decide) (by decide)

/-! ## Job levelling lemmas (claim C8) -/

theorem level_member_set_new_cap (job2 : job_record) (i v : Nat) (n : node_record) :
    level_member_node job2 i (set_new_cap v n) = level_member_node job2 i n := by
  cases hp : n.power <;> simp [level_member_node, set_new_cap, hp]

theorem apply_level_getElem (job : job_record) (v : Nat) :
    ∀ (tbl : List node_record) (k i : Nat),
      (apply_level job v k tbl)[i]? =
        (tbl[i]?).map
          (fun n => if level_member_node job (k + i) n then set_new_cap v n else n) := by
  intro tbl
  induction tbl with
  | nil => intro k i; simp [apply_level]
  | cons a rest ih =>
    intro k i
    cases i with
    | zero => simp [apply_level]
    | succ m =>
      simp only [apply_level, List.getElem?_cons_succ]
      rw [ih (k + 1) m]
      have h : k + 1 + m = k + (m + 1) := by omega
      rw [h]

theorem apply_level_length (job : job_record) (v : Nat) :
    ∀ (tbl : List node_record) (k : Nat), (apply_level job v k tbl).length = tbl.length := by
  intro tbl
  induction tbl with
  | nil => intro k; rfl
  | cons a rest ih =>
    intro k
    simp [apply_level, ih (k + 1)]

theorem level_one_job_length (tbl : List node_record) (job : job_record) :
    (level_one_job tbl job).length = tbl.length := by
  unfold level_one_job
  by_cases h1 : (job_stats tbl job).total_nodes < 2
  · rw [if_pos h1]
  · rw [if_neg h1]
    by_cases h2 : (job_stats tbl job).min_watts = (job_stats tbl job).max_watts
    · rw [if_pos h2]
    · rw [if_neg h2]
      exact apply_level_length job _ tbl 0

theorem member_at_apply_level (tbl : List node_record) (job2 job : job_record) (v i : Nat) :
    member_at (apply_level job v 0 tbl) job2 i = member_at tbl job2 i := by
  unfold member_at
  rw [apply_level_getElem]
  cases h : tbl[i]? with
  | none => rfl
  | some n =>
    show level_member_node job2 i
        (if level_member_node job (0 + i) n = true then set_new_cap v n else n) =
      level_member_node job2 i n
    rw [Nat.zero_add]
    by_cases hm : level_member_node job i n = true
    · rw [if_pos hm, level_member_set_new_cap]
    · rw [if_neg hm]

theorem member_at_level_one (tbl : List node_record) (job2 job : job_record) (i : Nat) :
    member_at (level_one_job tbl job) job2 i = member_at tbl job2 i := by
  unfold level_one_job
  by_cases h1 : (job_stats tbl job).total_nodes < 2
  · rw [if_pos h1]
  · rw [if_neg h1]
    by_cases h2 : (job_stats tbl job).min_watts = (job_stats tbl job).max_watts
    · rw [if_pos h2]
    · rw [if_neg h2]
      exact member_at_apply_level tbl job2 job _ i

theorem level_fold_cons (jl : Nat) (j : job_record) (js : List job_record)
    (tbl : List node_record) :
    _level_power_by_job jl (j :: js) tbl =
      _level_power_by_job jl js (if job_selected jl j then level_one_job tbl j else tbl) := by
  unfold _level_power_by_job
  rw [List.foldl_cons]

theorem level_fold_nil (jl : Nat) (tbl : List node_record) :
    _level_power_by_job jl [] tbl = tbl := rfl

theorem level_fold_append (jl : Nat) (pre post : List job_record) (tbl : List node_record) :
    _level_power_by_job jl (pre ++ post) tbl =
      _level_power_by_job jl post (_level_power_by_job jl pre tbl) := by
  unfold _level_power_by_job
  rw [List.foldl_append]

theorem member_at_fold (jl : Nat) :
    ∀ (js : List job_record) (tbl : List node_record) (job2 : job_record) (i : Nat),
      member_at (_level_power_by_job jl js tbl) job2 i = member_at tbl job2 i := by
  intro js
  induction js with
  | nil => intro tbl job2 i; rfl
  | cons j js ih =>
    intro tbl job2 i
    rw [level_fold_cons]
    by_cases hs : job_selected jl j
    · rw [if_pos hs, ih, member_at_level_one]
    · rw [if_neg hs, ih]

theorem level_fold_length (jl : Nat) :
    ∀ (js : List job_record) (tbl : List node_record),
      (_level_power_by_job jl js tbl).length = tbl.length := by
  intro js
  induction js with
  | nil => intro tbl; rfl
  | cons j js ih =>
    intro tbl
    rw [level_fold_cons]
    by_cases hs : job_selected jl j
    · rw [if_pos hs, ih, level_one_job_length]
    · rw [if_neg hs, ih]

theorem level_one_untouched (tbl : List node_record) (job : job_record) (i : Nat)
    (h : member_at tbl job i = false) :
    (level_one_job tbl job)[i]? = tbl[i]? := by
  unfold level_one_job
  by_cases h1 : (job_stats tbl job).total_nodes < 2
  · rw [if_pos h1]
  · rw [if_neg h1]
    by_cases h2 : (job_stats tbl job).min_watts = (job_stats tbl job).max_watts
    · rw [if_pos h2]
    · rw [if_neg h2]
      rw [apply_level_getElem]
      unfold member_at at h
      cases ht : tbl[i]? with
      | none => rfl
      | some n =>
        rw [ht] at h
        have h2 : level_member_node job i n = false := h
        rw [Option.map_some', Nat.zero_add, h2]
        simp

theorem fold_untouched (jl : Nat) :
    ∀ (js : List job_record) (tbl : List node_record) (i : Nat),
      (∀ j' ∈ js, job_selected jl j' = true → member_at tbl j' i = false) →
      (_level_power_by_job jl js tbl)[i]? = tbl[i]? := by
  intro js
  induction js with
  | nil => intro tbl i _; rfl
  | cons j js ih =>
    intro tbl i h
    rw [level_fold_cons]
    by_cases hs : job_selected jl j
    · rw [if_pos hs]
      have hji : member_at tbl j i = false := h j (List.mem_cons_self j js) hs
      rw [ih (level_one_job tbl j) i (fun j' hj' hsel' => by
        rw [member_at_level_one]
        exact h j' (List.mem_cons_of_mem j hj') hsel')]
      exact level_one_untouched tbl j i hji
    · rw [if_neg hs]
      exact ih tbl i (fun j' hj' hsel' => h j' (List.mem_cons_of_mem j hj') hsel')

theorem member_at_some {tbl : List node_record} {job : job_record} {i : Nat}
    (h : member_at tbl job i = true) :
    ∃ n, tbl[i]? = some n ∧ level_member_node job i n = true ∧
      ∃ p, n.power = some p := by
  unfold member_at at h
  cases ht : tbl[i]? with
  | none => rw [ht] at h; cases h
  | some n =>
    rw [ht] at h
    have h2 : level_member_node job i n = true := h
    refine ⟨n, rfl, h2, ?_⟩
    unfold level_member_node at h2
    cases hp : n.power with
    | none => rw [hp] at h2; simp at h2
    | some p => exact ⟨p, rfl⟩

theorem job_stats_step_nonmember (tbl : List node_record) (job : job_record) (i : Nat)
    (h : member_at tbl job i = false) (s : JobWatts) :
    job_stats_step tbl job s i = s := by
  unfold member_at at h
  cases ht : tbl[i]? with
  | none => simp only [job_stats_step, ht]
  | some n =>
    rw [ht] at h
    have h2 : level_member_node job i n = false := h
    simp only [job_stats_step, ht, h2, Bool.false_eq_true, if_false]

theorem job_stats_step_congr (t tbl : List node_record) (job : job_record) (i : Nat)
    (hmem : member_at t job i = member_at tbl job i)
    (hent : member_at tbl job i = true → t[i]? = tbl[i]?) :
    ∀ s, job_stats_step t job s i = job_stats_step tbl job s i := by
  intro s
  by_cases hm : member_at tbl job i = true
  · unfold job_stats_step
    rw [hent hm]
  · have hmb : member_at tbl job i = false := Bool.eq_false_iff.mpr hm
    have hmf : member_at t job i = false := by rw [hmem]; exact hmb
    rw [job_stats_step_nonmember t job i hmf, job_stats_step_nonmember tbl job i hmb]

theorem job_stats_congr (t tbl : List node_record) (job : job_record)
    (hlen : t.length = tbl.length)
    (hmem : ∀ i, member_at t job i = member_at tbl job i)
    (hent : ∀ i, member_at tbl job i = true → t[i]? = tbl[i]?) :
    job_stats t job = job_stats tbl job := by
  unfold job_stats
  rw [hlen]
  have hgen : ∀ (l : List Nat) (s : JobWatts),
      l.foldl (job_stats_step t job) s = l.foldl (job_stats_step tbl job) s := by
    intro l
    induction l with
    | nil => intro s; rfl
    | cons i l ih =>
      intro s
      simp only [List.foldl_cons]
      rw [job_stats_step_congr t tbl job i (hmem i) (hent i), ih]
  exact hgen _ _

theorem stats_fold_char (tbl : List node_record) (job : job_record) :
    ∀ (l : List Nat) (s : JobWatts), s.total_watts < W32 →
      (l.foldl (job_stats_step tbl job) s).total_watts =
        (s.total_watts +
          ((l.filter (fun i => member_at tbl job i)).map (cap_at tbl)).sum) % W32 ∧
      (l.foldl (job_stats_step tbl job) s).total_nodes =
        s.total_nodes + (l.filter (fun i => member_at tbl job i)).length := by
  intro l
  induction l with
  | nil =>
    intro s hs
    simp [Nat.mod_eq_of_lt hs]
  | cons i l ih =>
    intro s hs
    by_cases hm : member_at tbl job i = true
    · obtain ⟨n, hn, hlm, p, hp⟩ := member_at_some hm
      have hstep : job_stats_step tbl job s i =
          { total_watts := add32 s.total_watts p.new_cap_watts,
            total_nodes := s.total_nodes + 1,
            max_watts := max s.max_watts p.new_cap_watts,
            min_watts := min s.min_watts p.new_cap_watts } := by
        simp only [job_stats_step, hn, hlm, eq_self_iff_true, if_true, hp]
      have hcap : cap_at tbl i = p.new_cap_watts := by
        simp only [cap_at, hn, node_cap, hp]
      obtain ⟨ih1, ih2⟩ := ih (job_stats_step tbl job s i) (by rw [hstep]; exact add32_lt _ _)
      constructor
      · simp only [List.foldl_cons] at *
        rw [ih1, hstep]
        simp only [List.filter_cons, hm, if_pos, List.map_cons, List.sum_cons, hcap]
        show (add32 s.total_watts p.new_cap_watts + _) % W32 = _
        unfold add32
        rw [Nat.mod_add_mod, Nat.add_assoc]
      · simp only [List.foldl_cons] at *
        rw [ih2, hstep]
        simp only [List.filter_cons, hm, if_pos, List.length_cons]
        omega
    · have hmf : member_at tbl job i = false := Bool.eq_false_iff.mpr hm
      have hstep : job_stats_step tbl job s i = s := job_stats_step_nonmember tbl job i hmf s
      obtain ⟨ih1, ih2⟩ := ih (job_stats_step tbl job s i) (by rw [hstep]; exact hs)
      constructor
      · simp only [List.foldl_cons] at *
        rw [ih1, hstep]
        simp only [List.filter_cons, hmf]
        rw [if_neg (by simp)]
      · simp only [List.foldl_cons] at *
        rw [ih2, hstep]
        simp only [List.filter_cons, hmf]
        rw [if_neg (by simp)]

theorem job_stats_total (tbl : List node_record) (job : job_record)
    (h : job_sum tbl job < W32) :
    (job_stats tbl job).total_watts = job_sum tbl job := by
  obtain ⟨h1, _⟩ := stats_fold_char tbl job (List.range tbl.length)
    ⟨0, 0, 0, INFINITE⟩ (by decide)
  unfold job_stats
  rw [h1]
  unfold job_sum level_members at h ⊢
  rw [Nat.zero_add, Nat.mod_eq_of_lt h]

theorem job_stats_cnt (tbl : List node_record) (job : job_record) :
    (job_stats tbl job).total_nodes = job_cnt tbl job := by
  obtain ⟨_, h2⟩ := stats_fold_char tbl job (List.range tbl.length)
    ⟨0, 0, 0, INFINITE⟩ (by decide)
  unfold job_stats
  rw [h2]
  unfold job_cnt level_members
  rw [Nat.zero_add]

theorem level_one_member (tbl : List node_record) (job : job_record) (i : Nat)
    (hm : member_at tbl job i = true)
    (hcnt : ¬ (job_stats tbl job).total_nodes < 2)
    (hne : (job_stats tbl job).min_watts ≠ (job_stats tbl job).max_watts) :
    ∀ n, tbl[i]? = some n →
      (level_one_job tbl job)[i]? = some (set_new_cap
        ((job_stats tbl job).total_watts / (job_stats tbl job).total_nodes) n) := by
  intro n hn
  unfold level_one_job
  rw [if_neg hcnt, if_neg hne, apply_level_getElem, hn]
  unfold member_at at hm
  rw [hn] at hm
  have hm2 : level_member_node job i n = true := hm
  simp only [Option.map_some', Nat.zero_add, hm2, eq_self_iff_true, if_true]

/-- C8: with levelling enabled (`job_level ≠ 0`), for every selected
running job (force-on when `job_level = 1` selects all; the per-job
flag selects when `job_level = NO_VAL`; `job_level = 0` never reaches
this code) whose ready members number at least 2 with differing
min/max proposed caps, and whose members are disjoint from every other
selected job's members, Phase D leaves each ready member holding
`⌊Σ new_cap_watts / count⌋`, the floor of the arithmetic mean over the
job's ready members (sum taken before levelling; the hypothesis
`job_sum < 2^32` rules out 32-bit wrap in the accumulation). -/
theorem C8_level_mean (jl : Nat) (pre post : List job_record) (job : job_record)
    (tbl : List node_record) (i : Nat)
    (hjl : jl ≠ 0)
    (hsel : job_selected jl job = true)
    (hdisj : ∀ j' ∈ pre ++ post, job_selected jl j' = true →
      ∀ k, member_at tbl job k = true → member_at tbl j' k = false)
    (hcnt : 2 ≤ (job_stats tbl job).total_nodes)
    (hne : (job_stats tbl job).min_watts ≠ (job_stats tbl job).max_watts)
    (hsum : job_sum tbl job < W32)
    (hmem : member_at tbl job i = true) :
    ∀ n, (phaseD jl (pre ++ job :: post) tbl)[i]? = some n →
      ∀ p, n.power = some p →
        p.new_cap_watts = job_sum tbl job / job_cnt tbl job := by
  intro n hn p hp
  unfold phaseD at hn
  rw [if_pos hjl] at hn
  rw [show pre ++ job :: post = pre ++ ([job] ++ post) from by simp,
    level_fold_append, level_fold_append, level_fold_cons, level_fold_nil,
    if_pos hsel] at hn
  have hmem_t1 : ∀ (job2 : job_record) (k : Nat),
      member_at (_level_power_by_job jl pre tbl) job2 k = member_at tbl job2 k :=
    fun job2 k => member_at_fold jl pre tbl job2 k
  have hent_t1 : ∀ k, member_at tbl job k = true →
      (_level_power_by_job jl pre tbl)[k]? = tbl[k]? := by
    intro k hk
    exact fold_untouched jl pre tbl k (fun j' hj' hsel' =>
      hdisj j' (List.mem_append_left post hj') hsel' k hk)
  have hstats : job_stats (_level_power_by_job jl pre tbl) job = job_stats tbl job :=
    job_stats_congr _ tbl job (level_fold_length jl pre tbl)
      (fun k => hmem_t1 job k) hent_t1
  have hm1 : member_at (_level_power_by_job jl pre tbl) job i = true := by
    rw [hmem_t1]
    exact hmem
  obtain ⟨n1, hn1, _, p1, hp1⟩ := member_at_some hm1
  have ht2 := level_one_member (_level_power_by_job jl pre tbl) job i hm1
    (by rw [hstats]; omega) (by rw [hstats]; exact hne) n1 hn1
  have hfin : (_level_power_by_job jl post
      (level_one_job (_level_power_by_job jl pre tbl) job))[i]? =
      (level_one_job (_level_power_by_job jl pre tbl) job)[i]? := by
    apply fold_untouched
    intro j' hj' hsel'
    rw [member_at_level_one, hmem_t1]
    exact hdisj j' (List.mem_append_right pre hj') hsel' i hmem
  rw [hfin, ht2] at hn
  have hneq : n = set_new_cap
      ((job_stats (_level_power_by_job jl pre tbl) job).total_watts /
        (job_stats (_level_power_by_job jl pre tbl) job).total_nodes) n1 :=
    (Option.some.injEq _ _ ▸ hn).symm
  subst hneq
  unfold set_new_cap at hp
  rw [hp1] at hp
  simp only [Option.map_some'] at hp
  cases hp
  show (job_stats (_level_power_by_job jl pre tbl) job).total_watts /
      (job_stats (_level_power_by_job jl pre tbl) job).total_nodes =
    job_sum tbl job / job_cnt tbl job
  rw [hstats, job_stats_total tbl job hsum, job_stats_cnt tbl job]

/-- C8 witness: the spec's levelling scenario — one running job owning
three ready nodes with proposed caps {200, 300, 250} under force-on
levelling; every member ends at the mean 250 = ⌊750 / 3⌋. -/
theorem C8_level_mean_witness :
    (power_mgmt_data.mk 0 0 0 1000 0 250 0 1 0).new_cap_watts =
      job_sum
        [⟨1, some ⟨0, 0, 0, 1000, 0, 200, 0, 1, 0⟩⟩,
         ⟨2, some ⟨0, 0, 0, 1000, 0, 300, 0, 1, 0⟩⟩,
         ⟨3, some ⟨0, 0, 0, 1000, 0, 250, 0, 1, 0⟩⟩] ⟨true, false, [0, 1, 2]⟩ /
      job_cnt
        [⟨1, some ⟨0, 0, 0, 1000, 0, 200, 0, 1, 0⟩⟩,
         ⟨2, some ⟨0, 0, 0, 1000, 0, 300, 0, 1, 0⟩⟩,
         ⟨3, some ⟨0, 0, 0, 1000, 0, 250, 0, 1, 0⟩⟩] ⟨true, false, [0, 1, 2]⟩ :=
  C8_level_mean 1 [] [] ⟨true, false, [0, 1, 2]⟩
    [⟨1, some ⟨0, 0, 0, 1000, 0, 200, 0, 1, 0⟩⟩,
     ⟨2, some ⟨0, 0, 0, 1000, 0, 300, 0, 1, 0⟩⟩,
     ⟨3, some ⟨0, 0, 0, 1000, 0, 250, 0, 1, 0⟩⟩] 0
    (by decide) (by decide)
    (by intro j' hj'; exact absurd hj' (List.not_mem_nil j'))
    (by decide) (by decide) (by decide) (by decide)
    ⟨1, some ⟨0, 0, 0, 1000, 0, 250, 0, 1, 0⟩⟩ (by decide)
    ⟨0, 0, 0, 1000, 0, 250, 0, 1, 0⟩ (by decide)

end PowerCray
